import Mathlib

/-!
Shallow embedding of the databroker Broker/BrokerES layer
(src/databroker/broker.py) and proofs about it.

Python dictionaries are modelled as association lists, generators as
lists, and raised exceptions as an error type threaded through
Except.  Document values are modelled by the inductive PyVal below.
External collaborators (the metadata store and asset registry) are
modelled by concrete list-backed structures following the contract
stated for them by the repository.
-/

set_option maxHeartbeats 1000000

/-- Errors raised by the Broker layer.  The Python code raises ValueError,
IndexError or KeyError; names here follow the error taxonomy of the layer. -/
inductive BErr where
  | notFound
  | ambiguousKey
  | indexOutOfRange
  | invalidRange
  | fieldNotFound
  | illegalAliasName
  | keyError
  deriving DecidableEq, Repr

/-- Document field values: strings (reference ids, uids), booleans, numbers,
and retrieved payloads.  A payload wraps the value it was retrieved from, so
that retrieval is injective and never the identity. -/
inductive PyVal where
  | pstr (s : String)
  | pbool (b : Bool)
  | pnat (n : Nat)
  | payload (v : PyVal)
  deriving DecidableEq, Repr

/-- An asset registry: resolves a reference id to a payload
(the Registry.retrieve contract). -/
structure Registry where
  retrieve : PyVal → PyVal

/-- One entry of the data_keys mapping of an EventDescriptor: the optional
external spec string.  Python truthiness: only a present, non-empty string
marks the key as externally stored. -/
structure DataKeySpec where
  external : Option String := none
  deriving DecidableEq, Repr

/-- EventDescriptor: schema of one named stream within a run. -/
structure Descriptor where
  uid : String
  name : String
  data_keys : List (String × DataKeySpec)
  deriving DecidableEq, Repr

/-- Event document: data and filled are dictionaries keyed by field name. -/
structure Event where
  descriptor : String
  seq_num : Nat
  data : List (String × PyVal)
  filled : List (String × PyVal)
  deriving DecidableEq, Repr

/-- Dictionary read: d[k], as an Option (None models a KeyError). -/
def lookupKV (m : List (String × PyVal)) (k : String) : Option PyVal :=
  (m.find? (fun kv => kv.1 = k)).map (fun kv => kv.2)

/-- Dictionary write: d[k] = v, replacing an existing binding or appending. -/
def setKV (m : List (String × PyVal)) (k : String) (v : PyVal) :
    List (String × PyVal) :=
  if m.any (fun kv => kv.1 = k) then
    m.map (fun kv => if kv.1 = k then (k, v) else kv)
  else m ++ [(k, v)]

/-- The fill selector argument of fill_events and _fill_events_coro:
True, False, or a collection of field names. -/
inductive PyFill where
  | ftrue
  | ffalse
  | fset (fs : List String)
  deriving DecidableEq, Repr

/-- Keys of a descriptor with a truthy external marker, in data_keys order
(the keys for which _fill_events_coro records a registry_map entry). -/
def externalKeys (d : Descriptor) : List String :=
  d.data_keys.filterMap (fun kv =>
    match kv.2.external with
    | some s => if s = "" then none else some kv.1
    | none => none)

/-- The fill-key set of one descriptor: its external keys, intersected with
the requested fields when a concrete field set was given. -/
def descFillKeys (fields : Option (List String)) (d : Descriptor) :
    List String :=
  match fields with
  | none => externalKeys d
  | some fs => (externalKeys d).filter (fun k => k ∈ fs)

/-- State built by the setup phase of _fill_events_coro: registry_map is
modelled by its key set (every entry holds the same registry, assets with
the empty registry name), and fill_map maps descriptor uid to fill keys. -/
structure FillState where
  registry_keys : List (String × String)
  fill_map : List (String × List String)
  deriving DecidableEq, Repr

/-- Setup phase of _fill_events_coro over a descriptor set. -/
def setupFill (descriptors : List Descriptor) (fields : Option (List String)) :
    FillState :=
  { registry_keys :=
      descriptors.flatMap (fun d => (externalKeys d).map (fun k => (d.uid, k)))
  , fill_map := descriptors.map (fun d => (d.uid, descFillKeys fields d)) }

/-- Body of the _fill_events_coro loop for one event: iterate over every
entry of fill_map (all descriptors) and, for each fill key, read data[dk],
look up registry_map[(desc_id, dk)] keyed by the event descriptor, replace
data[dk] with the retrieved payload and record the reference id in
filled[dk].  A missing dictionary key models the KeyError the Python code
raises there. -/
def fillStep (assets : Registry) (st : FillState) (ev : Event) :
    Except BErr Event :=
  st.fill_map.foldlM (fun ev entry =>
    entry.2.foldlM (fun ev dk =>
      match lookupKV ev.data dk with
      | none => .error .keyError
      | some d_id =>
        if (ev.descriptor, dk) ∈ st.registry_keys then
          .ok { ev with
                data := setKV ev.data dk (assets.retrieve d_id)
                filled := setKV ev.filled dk d_id }
        else .error .keyError) ev) ev

/-- One send into the primed _fill_events_coro coroutine: the fields=False
branch forwards the event untouched; otherwise the setup state is applied. -/
def coroSend (assets : Registry) (descriptors : List Descriptor)
    (fields : PyFill) (ev : Event) : Except BErr Event :=
  match fields with
  | .ffalse => .ok ev
  | .ftrue => fillStep assets (setupFill descriptors none) ev
  | .fset fs => fillStep assets (setupFill descriptors (some fs)) ev

/-- fill_events / the whole life of one _fill_events_coro coroutine:
each event of the input sequence is sent through in order. -/
def fill_events (assets : Registry) (descriptors : List Descriptor)
    (fields : PyFill) (events : List Event) : Except BErr (List Event) :=
  events.mapM (coroSend assets descriptors fields)

/-- A table: mapping from field name to the column of values. -/
abbrev Table := List (String × List PyVal)

/-- Column read of a table (KeyError modelled as none). -/
def lookupCol (t : Table) (k : String) : Option (List PyVal) :=
  (t.find? (fun kv => kv.1 = k)).map (fun kv => kv.2)

/-- Column write of a table. -/
def setCol (t : Table) (k : String) (v : List PyVal) : Table :=
  if t.any (fun kv => kv.1 = k) then
    t.map (fun kv => if kv.1 = k then (k, v) else kv)
  else t ++ [(k, v)]

/-- fill_table: with fields=False the table is returned as-is; otherwise
every fill key column is replaced by the retrieved values, element-wise. -/
def fill_table (assets : Registry) (table : Table) (descriptor : Descriptor)
    (fields : PyFill) : Except BErr Table :=
  match fields with
  | .ffalse => .ok table
  | _ =>
    let fs : Option (List String) :=
      match fields with
      | .ftrue => none
      | .fset l => some l
      | .ffalse => none
    let fill_keys := descFillKeys fs descriptor
    fill_keys.foldlM (fun t k =>
      match lookupCol t k with
      | none => .error .keyError
      | some col => .ok (setCol t k (col.map assets.retrieve))) table

/-- RunStart document: uid plus integer scan_id. -/
structure RunStart where
  uid : String
  scan_id : Int
  deriving DecidableEq, Repr

/-- RunStop document. -/
structure RunStop where
  uid : String
  deriving DecidableEq, Repr

/-- The header source backing the Broker.  runs is the full history of
RunStart documents in most-recent-first order (the order find_last and
find_run_starts return them in); stops associates run uids with their
RunStop documents, when present. -/
structure HeaderSource where
  runs : List RunStart
  stops : List (String × RunStop)
  deriving DecidableEq, Repr

/-- Modelled from the spec: safe_get_stop (databroker.headersource, not
under src) returns the RunStop of a run, or None when the run is still
open. -/
def safe_get_stop (hs : HeaderSource) (s : RunStart) : Option RunStop :=
  (hs.stops.find? (fun kv => kv.1 = s.uid)).map (fun kv => kv.2)

/-- Modelled from the spec: find_last(n) of the metadata store returns the
n most recent RunStart documents, most-recent-first. -/
def find_last (hs : HeaderSource) (n : Nat) : List RunStart :=
  hs.runs.take n

/-- Modelled from the spec: find_run_starts(scan_id=k), most-recent-first. -/
def findByScanId (hs : HeaderSource) (k : Int) : List RunStart :=
  hs.runs.filter (fun r => r.scan_id = k)

/-- Modelled from the spec: find_run_starts(uid=key), exact uid match. -/
def findByUid (hs : HeaderSource) (key : String) : List RunStart :=
  hs.runs.filter (fun r => r.uid = key)

/-- Modelled from the spec: the fallback query find_run_starts with a uid
regex built from the key is a prefix match in the metadata store.  The
match is over the character lists of the strings. -/
def uidPrefixMatches (hs : HeaderSource) (key : String) : List RunStart :=
  hs.runs.filter (fun r => key.data.isPrefixOf r.uid.data)

/-- A resolved run: the (start_doc, stop_doc) pair the search arms return. -/
abbrev RunPair := RunStart × Option RunStop

/-- Pair a RunStart with its stop document. -/
def withStop (hs : HeaderSource) (r : RunStart) : RunPair :=
  (r, safe_get_stop hs r)

/-- Every k-th element of a list, starting with the head (Python l[::k]
for positive k). -/
def everyNth : List α → Nat → List α
  | [], _ => []
  | x :: xs, k => x :: everyNth (xs.drop (k - 1)) k
termination_by l => l.length
decreasing_by simp; omega

/-- Elements l[i], l[i-k], ... down to index 0 (Python negative-step
slicing from index i).  k = 0 cannot arise (Python raises on step 0). -/
def stepDownFrom (l : List α) (i k : Nat) : List α :=
  if k = 0 then []
  else
    match l.get? i with
    | none => []
    | some x => if k ≤ i then x :: stepDownFrom l (i - k) k else [x]
termination_by i
decreasing_by omega

/-- Python extended slicing l[a::c] with a non-negative (or omitted) start
index a and an arbitrary step c.  Step 0 raises. -/
def pySliceFrom (l : List α) (a : Option Nat) (c : Option Int) :
    Except BErr (List α) :=
  match c with
  | none => .ok (l.drop (a.getD 0))
  | some c =>
    if c = 0 then .error .invalidRange
    else if 0 < c then .ok (everyNth (l.drop (a.getD 0)) c.toNat)
    else
      let s := match a with
        | none => l.length - 1
        | some a => min a (l.length - 1)
      .ok (if l.length = 0 then [] else stepDownFrom l s (-c).toNat)

/-- The integer arm of search: non-negative keys are scan_ids resolved to
the most recent match; key <= -1 is the (-key)-th most recent run. -/
def intSearch (hs : HeaderSource) (n : Int) : Except BErr (List RunPair) :=
  if n > -1 then
    match (findByScanId hs n).head? with
    | none => .error .notFound
    | some r => .ok [withStop hs r]
  else
    let m := (-n).toNat
    match (find_last hs m).get? (m - 1) with
    | none => .error .indexOutOfRange
    | some r => .ok [withStop hs r]

/-- The slice arm of search: start must be a negative integer, stop must be
non-positive; the window of the -start most recent runs is then sliced with
Python semantics from index -stop with the given step. -/
def sliceSearch (hs : HeaderSource) (start stop step : Option Int) :
    Except BErr (List RunPair) :=
  if (match start with | some a => decide (a > -1) | none => false) then
    .error .invalidRange
  else if (match stop with | some b => decide (b > 0) | none => false) then
    .error .invalidRange
  else
    match start with
    | none => .error .invalidRange
    | some a =>
      let stopIdx : Option Nat := stop.map (fun b => (-b).toNat)
      (pySliceFrom (find_last hs (-a).toNat) stopIdx step).map
        (fun res => res.map (withStop hs))

/-- The string arm of search: a 36-character key is first tried as a full
uid; on no result the key is retried as a uid prefix; zero matches raise,
more than one match raises. -/
def strSearch (hs : HeaderSource) (key : String) : Except BErr (List RunPair) :=
  let results := if key.length = 36 then findByUid hs key else []
  let results := if results.isEmpty then uidPrefixMatches hs key else results
  if results.isEmpty then .error .notFound
  else if results.length > 1 then .error .ambiguousKey
  else .ok (results.map (withStop hs))

/-- Query keys accepted by the Broker index operator: integer, slice,
string, or a collection (set, tuple or list) of keys. -/
inductive DKey where
  | int (n : Int)
  | slc (start stop step : Option Int)
  | str (s : String)
  | coll (ks : List DKey)

mutual

/-- The singledispatch search function of broker.py. -/
def searchKey (hs : HeaderSource) : DKey → Except BErr (List RunPair)
  | .int n => intSearch hs n
  | .slc a b c => sliceSearch hs a b c
  | .str s => strSearch hs s
  | .coll ks => searchKeys hs ks

/-- The collection arm: resolve each element in order and concatenate;
the first error propagates. -/
def searchKeys (hs : HeaderSource) : List DKey → Except BErr (List RunPair)
  | [] => .ok []
  | k :: ks => do
    let a ← searchKey hs k
    let b ← searchKeys hs ks
    .ok (a ++ b)

end

/-- Result of BrokerES.__getitem__: a bare Header or a list of Headers. -/
inductive GetResult where
  | single (h : RunPair)
  | multiple (hs : List RunPair)
  deriving DecidableEq, Repr

/-- Keys that are squeezed to a bare Header when exactly one run results:
everything except sets, tuples, lists and slices. -/
def squeezeKey : DKey → Bool
  | .coll _ => false
  | .slc _ _ _ => false
  | _ => true

/-- BrokerES.__getitem__: run search, then squeeze a single-element result
unless the key was a collection or slice. -/
def getitem (hs : HeaderSource) (k : DKey) : Except BErr GetResult :=
  (searchKey hs k).map (fun ret =>
    match ret, squeezeKey k with
    | [r], true => .single r
    | ret, _ => .multiple ret)

/-- The Results view over a search: the underlying source of
(start_doc, stop_doc) pairs plus the optional data_key filter.  The source
is a one-shot iterable in Python; each call to Results.__iter__ forks it
with itertools.tee, storing one fork back and consuming the other, so the
stored source always still holds every element. -/
structure ResultsM where
  res : List RunPair
  data_key : Option String

/-- One call to Results.__iter__, run to exhaustion: returns the Headers
yielded (represented by their RunStart documents) and the Results object
as it stands afterwards (its source replaced by the tee fork holding the
same elements).  descOf gives the descriptors of a header by run uid. -/
def resultsIter (descOf : String → List Descriptor) (r : ResultsM) :
    List RunStart × ResultsM :=
  (r.res.filterMap (fun p =>
    match r.data_key with
    | none => some p.1
    | some dk =>
      if (descOf p.1.uid).any (fun d => d.data_keys.any (fun kv => kv.1 = dk))
      then some p.1 else none),
   { r with res := r.res })

/-- A Header as get_documents consumes it: the run start/stop documents
and the cached descriptor list. -/
structure HeaderM where
  start : RunStart
  stop : Option RunStop
  descriptors : List Descriptor

/-- Modelled from the spec: check_fields_exist (databroker.eventsource,
not under src) requires every name in fields to appear in the data_keys of
at least one descriptor across all given headers. -/
def check_fields_exist (fields : List String) (headers : List HeaderM) :
    Bool :=
  fields.all (fun f =>
    headers.any (fun h =>
      h.descriptors.any (fun d => d.data_keys.any (fun kv => kv.1 = f))))

/-- A document of the merged stream, tagged by its type. -/
inductive DocU where
  | dstart (s : RunStart)
  | ddesc (d : Descriptor)
  | devent (e : Event)
  | dstop (s : RunStop)
  deriving DecidableEq, Repr

/-- The name string attached to a document in the (name, doc) stream. -/
def docName : DocU → String
  | .dstart _ => "start"
  | .ddesc _ => "descriptor"
  | .devent _ => "event"
  | .dstop _ => "stop"

/-- The inner loop of get_documents for one header: every document of the
event sources is forwarded; event documents are first routed through the
fill coroutine of that header.  Returns the emitted documents and the
error, if one was raised, at which point emission stops. -/
def processDocs (assets : Registry) (descs : List Descriptor) (fill : PyFill) :
    List DocU → List DocU × Option BErr
  | [] => ([], none)
  | doc :: rest =>
    match doc with
    | .devent ev =>
      match coroSend assets descs fill ev with
      | .error e => ([], some e)
      | .ok ev2 =>
        let t := processDocs assets descs fill rest
        (.devent ev2 :: t.1, t.2)
    | other =>
      let t := processDocs assets descs fill rest
      (other :: t.1, t.2)

/-- The header loop of get_documents: one fill coroutine per header, the
documents of all registered event sources in registration order. -/
def gdHeaders (assets : Registry) (dsrcs : List (HeaderM → List DocU))
    (fill : PyFill) : List HeaderM → List DocU × Option BErr
  | [] => ([], none)
  | h :: hs =>
    let t := processDocs assets h.descriptors fill
      (dsrcs.flatMap (fun f => f h))
    match t.2 with
    | some e => (t.1, some e)
    | none =>
      let u := gdHeaders assets dsrcs fill hs
      (t.1 ++ u.1, u.2)

/-- BrokerES.get_documents: validate the fields whitelist eagerly against
every descriptor of every header, then stream the documents of each
header through the fill pipeline.  The fields argument is passed to
check_fields_exist as the empty list when it is None.  dsrcs model
docs_given_header of the registered event sources (already filtered by
stream name and fields, which the sources own). -/
def get_documents (assets : Registry) (dsrcs : List (HeaderM → List DocU))
    (headers : List HeaderM) (fields : Option (List String)) (fill : PyFill) :
    List DocU × Option BErr :=
  let fl := match fields with
    | none => []
    | some l => l
  if check_fields_exist fl headers then
    gdHeaders assets dsrcs fill headers
  else ([], some .fieldNotFound)

/-- A value registered under an alias name: a static query, or a
zero-argument callable producing a query. -/
inductive AliasVal where
  | static (q : List (String × String))
  | dyn (f : Unit → List (String × String))

/-- The mutable alias table of a Broker. -/
structure BrokerState where
  aliases : List (String × AliasVal)

/-- Whether key is a registered alias name. -/
def isAliasKey (st : BrokerState) (key : String) : Bool :=
  st.aliases.any (fun kv => kv.1 = key)

/-- Python hasattr on a BrokerES object: true for the fixed class and
instance attributes (attrs) and, through the getattr fallback that
resolves alias names, for every registered alias. -/
def hasattrBroker (attrs : List String) (st : BrokerState) (key : String) :
    Bool :=
  attrs.contains key || isAliasKey st key

/-- Dictionary assignment self.aliases[key] = v. -/
def setAlias (st : BrokerState) (key : String) (v : AliasVal) : BrokerState :=
  ⟨if isAliasKey st key then
     st.aliases.map (fun kv => if kv.1 = key then (key, v) else kv)
   else st.aliases ++ [(key, v)]⟩

/-- BrokerES.alias: reject a key that is an existing attribute and not
already an alias; otherwise store the query under the key. -/
def aliasOp (attrs : List String) (st : BrokerState) (key : String)
    (query : List (String × String)) : Except BErr BrokerState :=
  if hasattrBroker attrs st key && !isAliasKey st key then
    .error .illegalAliasName
  else .ok (setAlias st key (.static query))

/-- BrokerES.dynamic_alias: same guard, storing a callable. -/
def dynamic_alias (attrs : List String) (st : BrokerState) (key : String)
    (f : Unit → List (String × String)) : Except BErr BrokerState :=
  if hasattrBroker attrs st key && !isAliasKey st key then
    .error .illegalAliasName
  else .ok (setAlias st key (.dyn f))

/-- Whether an Except value is an error. -/
def isErr : Except BErr α → Bool
  | .error _ => true
  | .ok _ => false

/-- One run as held by a source broker: its documents. -/
structure Run where
  start : RunStart
  stop : RunStop
  descriptors : List Descriptor
  events : List Event
  deriving DecidableEq, Repr

/-- A destination document store, as populated by export. -/
structure Store where
  starts : List RunStart
  descriptors : List Descriptor
  events : List Event
  stops : List RunStop
  deriving DecidableEq, Repr

/-- The empty destination store. -/
def emptyStore : Store := ⟨[], [], [], []⟩

/-- Modelled from the spec: get_events of the source broker as export
calls it, with the default stream_name of primary — the events of the run
whose descriptor has the stream name primary (docs_given_header of the
event source, which is not under src, filters by stream name). -/
def primaryEvents (r : Run) : List Event :=
  r.events.filter (fun e =>
    match r.descriptors.find? (fun d => d.uid = e.descriptor) with
    | some d => d.name = "primary"
    | none => false)

/-- Export strips the bookkeeping filled mapping from an event before
inserting it. -/
def stripFilled (e : Event) : Event := { e with filled := [] }

/-- The descriptor loop of export: for each descriptor, insert it, then
drain the events generator into the destination.  The generator is
consumed by the first descriptor iteration, so later descriptors insert no
events. -/
def exportDescLoop : List Descriptor → List Event → Store → Store
  | [], _, dst => dst
  | d :: ds, evs, dst =>
    exportDescLoop ds []
      { dst with
        descriptors := dst.descriptors ++ [d]
        events := dst.events ++ evs.map stripFilled }

/-- Broker.export for one header: insert the start document, run the
descriptor/event loop over the get_events generator, insert the stop
document.  Asset copying does not touch the document store and is
omitted. -/
def exportRun (r : Run) (dst : Store) : Store :=
  let dst1 := { dst with starts := dst.starts ++ [r.start] }
  let dst2 := exportDescLoop r.descriptors (primaryEvents r) dst1
  { dst2 with stops := dst2.stops ++ [r.stop] }

/-- A fresh query of the destination store for the events of a run: events
whose descriptor reference belongs to the run. -/
def Store.runEvents (st : Store) (r : Run) : List Event :=
  st.events.filter (fun e =>
    (r.descriptors.map Descriptor.uid).contains e.descriptor)

/-- A fresh query of the destination store for the start documents of a
run. -/
def Store.runStarts (st : Store) (r : Run) : List RunStart :=
  st.starts.filter (fun s => s.uid = r.start.uid)

/-- A fresh query of the destination store for the descriptors of a run. -/
def Store.runDescriptors (st : Store) (r : Run) : List Descriptor :=
  st.descriptors.filter (fun d =>
    (r.descriptors.map Descriptor.uid).contains d.uid)

/-- A fresh query of the destination store for the stop documents of a
run. -/
def Store.runStops (st : Store) (r : Run) : List RunStop :=
  st.stops.filter (fun s => s.uid = r.stop.uid)

/-!
Concrete documents used by counterexamples and witnesses.
-/

/-- A registry whose retrieve wraps its argument in a payload marker. -/
def wrapReg : Registry := ⟨fun v => .payload v⟩

/-- Descriptor d1 with the single external key x. -/
def descX : Descriptor := ⟨"d1", "primary", [("x", ⟨some "FILESTORE"⟩)]⟩

/-- Descriptor d2 with the single external key y. -/
def descY : Descriptor := ⟨"d2", "primary", [("y", ⟨some "FILESTORE"⟩)]⟩

/-- Descriptor d2 that also marks x external. -/
def descX2 : Descriptor := ⟨"d2", "primary", [("x", ⟨some "FILESTORE"⟩)]⟩

/-- An event of descriptor d1 whose external key x holds a reference id. -/
def evX : Event := ⟨"d1", 1, [("x", .pstr "ref-x")], [("x", .pbool false)]⟩

/-- An event of descriptor d1 whose external key x holds the reference id
ref-1. -/
def evR : Event := ⟨"d1", 1, [("x", .pstr "ref-1")], [("x", .pbool false)]⟩

/-- C1: the claim says the row-oriented fill touches exactly the fill keys
of the event descriptor, and keys external only in another descriptor of
the set are untouched and cause no failure.  The code instead iterates the
fill_map entries of every descriptor: on an event of descriptor d1, the
fill key y of descriptor d2 is looked up in the event data and raises
KeyError.  This theorem evaluates the pipeline at that failing input. -/
theorem fill_events_foreign_descriptor_key_raises :
    fill_events wrapReg [descX, descY] .ftrue [evX] = .error .keyError := by
  rfl

/-- C3: the claim says every field actually filled ends with data holding
the retrieved payload of the original reference id, and filled holding
exactly that original reference id.  When two descriptors of the set both
mark x external, the loop over every fill_map entry fills x twice: data
ends as retrieve applied twice and filled ends holding the retrieved
payload, not the original reference id ref-1.  This theorem evaluates the
pipeline at that failing input. -/
theorem fill_events_double_fill_corrupts_filled :
    fill_events wrapReg [descX, descX2] .ftrue [evR] =
      .ok [{ evR with
             data := [("x", .payload (.payload (.pstr "ref-1")))]
             filled := [("x", .payload (.pstr "ref-1"))] }]
    ∧ (PyVal.payload (.pstr "ref-1")) ≠ .pstr "ref-1" := by
  exact ⟨rfl, by decide⟩

/-- A run whose only stream is named baseline: one descriptor, one event. -/
def baselineRun : Run :=
  { start := ⟨"run-1", 1⟩
  , stop := ⟨"stop-1"⟩
  , descriptors := [⟨"d-base", "baseline", [("temp", ⟨none⟩)]⟩]
  , events := [⟨"d-base", 1, [("temp", .pnat 5)], []⟩] }

/-- C2: the claim says export round-trips start, stop, descriptor and
event counts for every run, including runs whose events live in streams
other than primary.  The code calls get_events with its default
stream_name of primary, so the single event of a baseline-stream run is
never inserted: a fresh query of the destination finds the start, the
descriptor and the stop but zero of the one event. -/
theorem export_drops_non_primary_events :
    ((exportRun baselineRun emptyStore).runEvents baselineRun).length = 0
    ∧ baselineRun.events.length = 1
    ∧ ((exportRun baselineRun emptyStore).runStarts baselineRun).length = 1
    ∧ ((exportRun baselineRun emptyStore).runDescriptors baselineRun).length
        = 1
    ∧ ((exportRun baselineRun emptyStore).runStops baselineRun).length = 1
    := by
  refine ⟨rfl, rfl, rfl, rfl, rfl⟩

/-- C4: filling with fields=False is the identity on the event stream:
every event is consumed and forwarded unchanged and no error is raised;
fill_table with fields=False likewise returns the table unchanged. -/
theorem fill_false_is_passthrough (assets : Registry)
    (descriptors : List Descriptor) (events : List Event)
    (table : Table) (d : Descriptor) :
    fill_events assets descriptors .ffalse events = .ok events
    ∧ fill_table assets table d .ffalse = .ok table := by
  constructor
  · unfold fill_events
    induction events with
    | nil => rfl
    | cons e es ih =>
      simp only [List.mapM_cons, coroSend, ih]
      rfl
  · rfl

/-- Filtering a run list with pairwise distinct uids for the uid of a
member returns exactly that member. -/
theorem filter_uid_singleton (l : List RunStart) (r : RunStart) (key : String)
    (hnd : (l.map RunStart.uid).Nodup) (hmem : r ∈ l) (huid : r.uid = key) :
    l.filter (fun x => x.uid = key) = [r] := by
  induction l with
  | nil => cases hmem
  | cons a t ih =>
    rw [List.map_cons, List.nodup_cons] at hnd
    rcases List.mem_cons.mp hmem with rfl | h
    · have hfilter : t.filter (fun x => x.uid = key) = [] := by
        refine List.filter_eq_nil_iff.mpr ?_
        intro x hx hxk
        simp only [decide_eq_true_eq] at hxk
        exact hnd.1 (huid ▸ hxk ▸ List.mem_map_of_mem RunStart.uid hx)
      simp [List.filter_cons, huid, hfilter]
    · have hak : (a.uid = key) = False := by
        simp only [eq_iff_iff, iff_false]
        intro hk
        exact hnd.1 (hk ▸ huid ▸ List.mem_map_of_mem RunStart.uid h)
      rw [List.filter_cons]
      simp only [hak, decide_False]
      exact ih hnd.2 h

/-- C5: a 36-character key that exactly equals the uid of a run resolves
to that run without the prefix fallback, whatever the other uids look
like; with no exact match the prefix fallback raises NotFoundError on
zero matches and AmbiguousKey on more than one. -/
theorem strSearch_exact_then_fallback (hs : HeaderSource) (key : String) :
    (∀ r : RunStart, (hs.runs.map RunStart.uid).Nodup → r ∈ hs.runs →
        r.uid = key → key.length = 36 →
        strSearch hs key = .ok [withStop hs r])
    ∧ ((∀ r ∈ hs.runs, r.uid ≠ key) →
        (uidPrefixMatches hs key = [] → strSearch hs key = .error .notFound)
        ∧ (1 < (uidPrefixMatches hs key).length →
            strSearch hs key = .error .ambiguousKey)) := by
  constructor
  · intro r hnd hmem huid hlen
    unfold strSearch findByUid
    rw [if_pos hlen, filter_uid_singleton hs.runs r key hnd hmem huid]
    rfl
  · intro hno
    have hexact : (if key.length = 36 then findByUid hs key else []) = [] := by
      split
      · refine List.filter_eq_nil_iff.mpr ?_
        intro x hx hxk
        simp only [decide_eq_true_eq] at hxk
        exact hno x hx hxk
      · rfl
    constructor
    · intro hpfx
      unfold strSearch
      rw [hexact, hpfx]
      rfl
    · intro hlen2
      unfold strSearch
      rw [hexact]
      rcases hp : uidPrefixMatches hs key with _ | ⟨a, t⟩
      · rw [hp] at hlen2; simp at hlen2
      · rw [hp] at hlen2
        simp only [List.isEmpty_cons, List.isEmpty_nil]
        rw [if_neg (by simp), if_pos (by simpa using hlen2)]

/-- A canonical 36-character uid. -/
def uidA : String := "aaaaaaaa-aaaa-aaaa-aaaa-aaaaaaaaaaaa"

/-- A history where another uid contains uidA as a proper prefix. -/
def hsU : HeaderSource :=
  ⟨[⟨uidA ++ "-tail", 2⟩, ⟨uidA, 1⟩], [(uidA, ⟨"stop-a"⟩)]⟩

/-- Witness for C5: the exact 36-character key resolves to its run even
though the uid of a more recent run contains the key as a prefix, and an
unmatched key fails with NotFoundError. -/
theorem strSearch_exact_then_fallback_witness :
    strSearch hsU uidA = .ok [withStop hsU ⟨uidA, 1⟩]
    ∧ strSearch hsU "zz" = .error .notFound := by
  refine ⟨(strSearch_exact_then_fallback hsU uidA).1 ⟨uidA, 1⟩ (by decide)
            (by decide) rfl (by decide), ?_⟩
  exact ((strSearch_exact_then_fallback hsU "zz").2 (by decide)).1 (by decide)

/-- C6: resolving a slice raises InvalidRange whenever start is None,
start is greater than -1, or stop is greater than 0; otherwise the window
of the -start most recent runs is sliced Python-style, so that the slice
from -5 to -2 on a history of at least 5 runs returns exactly the 3 runs
at recency ranks 3, 4 and 5, in most-recent-first order, never including
the single most recent run. -/
theorem sliceSearch_bounds_and_window (hs : HeaderSource) :
    (∀ sp st2, sliceSearch hs none sp st2 = .error .invalidRange)
    ∧ (∀ a sp st2, a > -1 →
        sliceSearch hs (some a) sp st2 = .error .invalidRange)
    ∧ (∀ sa b st2, b > 0 →
        sliceSearch hs sa (some b) st2 = .error .invalidRange)
    ∧ (5 ≤ hs.runs.length →
        sliceSearch hs (some (-5)) (some (-2)) none =
          .ok (((hs.runs.drop 2).take 3).map (withStop hs))
        ∧ (((hs.runs.drop 2).take 3).map (withStop hs)).length = 3
        ∧ (hs.runs.Nodup → ∀ h0, hs.runs.head? = some h0 →
            h0 ∉ (hs.runs.drop 2).take 3)) := by
  refine ⟨?_, ?_, ?_, ?_⟩
  · intro sp st2
    unfold sliceSearch
    split
    · rfl
    · split
      · rfl
      · rfl
  · intro a sp st2 ha
    unfold sliceSearch
    rw [if_pos (by simpa using ha)]
  · intro sa b st2 hb
    rcases sa with _ | a
    · unfold sliceSearch
      split
      · rfl
      · split
        · rfl
        · rfl
    · unfold sliceSearch
      split
      · rfl
      · rw [if_pos (by simpa using hb)]
  · intro hlen
    have hmain : sliceSearch hs (some (-5)) (some (-2)) none =
        .ok (((hs.runs.drop 2).take 3).map (withStop hs)) := by
      unfold sliceSearch
      rw [if_neg (by simp), if_neg (by simp)]
      norm_num [pySliceFrom, find_last, Except.map, List.drop_take]
      simp only [show Int.toNat 5 = 5 from rfl, show Int.toNat 2 = 2 from rfl]
    refine ⟨hmain, ?_, ?_⟩
    · simp only [List.length_map, List.length_take, List.length_drop]
      omega
    · intro hnd h0 hh0 hmem
      rcases hcons : hs.runs with _ | ⟨a, t⟩
      · rw [hcons] at hh0; cases hh0
      · rw [hcons] at hh0 hmem hnd
        have ha0 : a = h0 := by simpa using hh0
        subst ha0
        have hdt : (a :: t).drop 2 = t.drop 1 := rfl
        have hat : a ∈ t :=
          List.drop_subset _ _ (hdt ▸ List.take_subset _ _ hmem)
        rw [List.nodup_cons] at hnd
        exact hnd.1 hat

/-- A history of five runs with distinct uids, most-recent-first. -/
def hs5 : HeaderSource :=
  ⟨[⟨"u1", 1⟩, ⟨"u2", 2⟩, ⟨"u3", 3⟩, ⟨"u4", 4⟩, ⟨"u5", 5⟩], []⟩

/-- Witness for C6 at a concrete five-run history: non-negative start and
positive stop raise, a missing start raises, and the slice from -5 to -2
gives the 3 runs at recency ranks 3 to 5, excluding the most recent. -/
theorem sliceSearch_bounds_and_window_witness :
    sliceSearch hs5 (some 0) none none = .error .invalidRange
    ∧ sliceSearch hs5 none none none = .error .invalidRange
    ∧ sliceSearch hs5 (some (-5)) (some 1) none = .error .invalidRange
    ∧ sliceSearch hs5 (some (-5)) (some (-2)) none =
        .ok (((hs5.runs.drop 2).take 3).map (withStop hs5))
    ∧ (⟨"u1", 1⟩ : RunStart) ∉ (hs5.runs.drop 2).take 3 := by
  refine ⟨(sliceSearch_bounds_and_window hs5).2.1 0 none none (by decide),
          (sliceSearch_bounds_and_window hs5).1 none none,
          (sliceSearch_bounds_and_window hs5).2.2.1 (some (-5)) 1 none
            (by decide),
          ((sliceSearch_bounds_and_window hs5).2.2.2 (by decide)).1,
          ((sliceSearch_bounds_and_window hs5).2.2.2 (by decide)).2.2
            (by decide) _ rfl⟩

/-- C7: get_documents with a non-empty fields whitelist naming a field
absent from the data_keys of every descriptor of every given header fails
with FieldNotFound before emitting any document pair. -/
theorem get_documents_eager_field_check (assets : Registry)
    (dsrcs : List (HeaderM → List DocU)) (headers : List HeaderM)
    (fields : List String) (fill : PyFill) (f : String)
    (hf : f ∈ fields)
    (habsent : ∀ h ∈ headers, ∀ d ∈ h.descriptors, ∀ kv ∈ d.data_keys,
        kv.1 ≠ f) :
    get_documents assets dsrcs headers (some fields) fill =
      ([], some .fieldNotFound) := by
  unfold get_documents
  have hchk : check_fields_exist fields headers = false := by
    unfold check_fields_exist
    rw [List.all_eq_false]
    refine ⟨f, hf, ?_⟩
    rw [List.any_eq_true]
    rintro ⟨h, hh, hhh⟩
    rw [List.any_eq_true] at hhh
    obtain ⟨d, hd, hdd⟩ := hhh
    rw [List.any_eq_true] at hdd
    obtain ⟨kv, hkv, hkvf⟩ := hdd
    simp only [decide_eq_true_eq] at hkvf
    exact habsent h hh d hd kv hkv hkvf
  simp [hchk]

/-- A header whose single descriptor has only the data key temp. -/
def hdrW : HeaderM := ⟨⟨"run-w", 1⟩, none, [⟨"dw", "primary", [("temp", ⟨none⟩)]⟩]⟩

/-- Witness for C7: requesting the absent field missing fails eagerly with
FieldNotFound and nothing emitted. -/
theorem get_documents_eager_field_check_witness :
    get_documents wrapReg [] [hdrW] (some ["missing"]) .ffalse =
      ([], some .fieldNotFound) :=
  get_documents_eager_field_check wrapReg [] [hdrW] ["missing"] .ffalse
    "missing" (by decide) (by decide)

/-- C8: iterating a Results view a second time yields a Header sequence
equal, element by element and hence by RunStart uid, to the first
iteration, because each iteration forks the source with tee and stores a
fork holding every element back; the stored source is left intact. -/
theorem results_view_reiterable (descOf : String → List Descriptor)
    (r : ResultsM) :
    (resultsIter descOf (resultsIter descOf r).2).1.map RunStart.uid =
      (resultsIter descOf r).1.map RunStart.uid
    ∧ (resultsIter descOf (resultsIter descOf r).2).1 =
        (resultsIter descOf r).1
    ∧ (resultsIter descOf r).2.res = r.res :=
  ⟨rfl, rfl, rfl⟩

/-- C9: registering an alias (static or dynamic) raises exactly when the
chosen name is an existing Broker attribute that is not already a
registered alias; re-registering an alias name never raises and replaces
the stored value. -/
theorem alias_registration_guard (attrs : List String) (st : BrokerState)
    (key : String) (q : List (String × String))
    (f : Unit → List (String × String)) :
    (isErr (aliasOp attrs st key q) = true ↔
      (key ∈ attrs ∧ isAliasKey st key = false))
    ∧ (isErr (dynamic_alias attrs st key f) = true ↔
      (key ∈ attrs ∧ isAliasKey st key = false))
    ∧ (isAliasKey st key = true →
        aliasOp attrs st key q = .ok (setAlias st key (.static q))
        ∧ dynamic_alias attrs st key f = .ok (setAlias st key (.dyn f))) := by
  by_cases hA : isAliasKey st key = true
  · refine ⟨?_, ?_, ?_⟩
    · simp [aliasOp, hasattrBroker, hA, isErr]
    · simp [dynamic_alias, hasattrBroker, hA, isErr]
    · intro _
      constructor
      · simp [aliasOp, hasattrBroker, hA]
      · simp [dynamic_alias, hasattrBroker, hA]
  · rw [Bool.not_eq_true] at hA
    by_cases hC : key ∈ attrs
    · refine ⟨?_, ?_, ?_⟩
      · simp [aliasOp, hasattrBroker, hA, hC, isErr]
      · simp [dynamic_alias, hasattrBroker, hA, hC, isErr]
      · intro hcontra
        rw [hA] at hcontra
        cases hcontra
    · refine ⟨?_, ?_, ?_⟩
      · simp [aliasOp, hasattrBroker, hA, hC, isErr]
      · simp [dynamic_alias, hasattrBroker, hA, hC, isErr]
      · intro hcontra
        rw [hA] at hcontra
        cases hcontra

/-- An alias table with the single alias cal. -/
def stCal : BrokerState := ⟨[("cal", .static [("purpose", "calibration")])]⟩

/-- Witness for C9: registering over the existing attribute name insert
raises, and re-registering the alias cal succeeds and replaces it. -/
theorem alias_registration_guard_witness :
    isErr (aliasOp ["insert", "get_table"] stCal "insert" []) = true
    ∧ aliasOp ["insert", "get_table"] stCal "cal" [("purpose", "align")] =
        .ok (setAlias stCal "cal" (.static [("purpose", "align")])) := by
  refine ⟨(alias_registration_guard ["insert", "get_table"] stCal "insert" []
      (fun _ => [])).1.mpr ⟨by decide, by decide⟩, ?_⟩
  exact ((alias_registration_guard ["insert", "get_table"] stCal "cal"
      [("purpose", "align")] (fun _ => [])).2.2 (by decide)).1

/-- C10: indexing the Broker with an empty collection key returns the
empty list without error, and a collection key is never squeezed to a
bare Header. -/
theorem getitem_empty_collection (hs : HeaderSource) :
    getitem hs (.coll []) = .ok (.multiple [])
    ∧ (∀ ks r, getitem hs (.coll ks) = .ok r → ∃ l, r = .multiple l) := by
  constructor
  · rfl
  · intro ks r h
    unfold getitem at h
    rcases hsk : searchKey hs (.coll ks) with e | ret <;> rw [hsk] at h
    · cases h
    · refine ⟨ret, ?_⟩
      rcases ret with _ | ⟨a, t⟩
      · simpa [Except.map] using h.symm
      · rcases t with _ | ⟨b, u⟩
        · simpa [Except.map] using h.symm
        · simpa [Except.map] using h.symm

/-- Witness for C10 at a concrete store: the empty-collection lookup is
the empty list and the implication instantiates at it. -/
theorem getitem_empty_collection_witness :
    getitem hs5 (.coll []) = .ok (.multiple [])
    ∧ ∃ l, (GetResult.multiple ([] : List RunPair)) = .multiple l :=
  ⟨(getitem_empty_collection hs5).1,
   (getitem_empty_collection hs5).2 [] (.multiple []) rfl⟩
